import Mathlib

/-!
# Verification of the Nox agent-service request guard

This file gives a shallow embedding of the two guard components of the
`nox-agent-service` repository — the SSRF target validator `isUrlSafe` and the
per-identity fixed-window rate limiter `rateLimit` with its periodic sweep —
and proves the testable properties stated for them.

The validator is translated from the source function `isUrlSafe` together with
its constant tables `BLOCKED_HOSTS` and `BLOCKED_IP_RANGES`.  The source calls
the platform's WHATWG `URL` constructor; `parseURL` below models the fragment
of that parser the validator observes (`url.protocol` and `url.hostname`).

The rate limiter is translated from the source function `rateLimit` (the
per-request middleware), the constants `RATE_LIMIT_WINDOW` and
`RATE_LIMIT_MAX`, and the `setInterval` sweep that evicts stale entries.  The
JavaScript `Map` keyed by client identity is modelled as an association list
with unique keys; timestamps (`Date.now()` milliseconds) are integers.
-/

/-! ## Character-list string helpers -/

/-- `hasPrefixL s pat` is true when `pat` is a prefix of `s`. -/
def hasPrefixL : List Char → List Char → Bool
  | _, [] => true
  | [], _ :: _ => false
  | c :: cs, p :: ps => c == p && hasPrefixL cs ps

/-- `hasSuffixL s pat` is true when `pat` is a suffix of `s`
(models JavaScript `String.prototype.endsWith`). -/
def hasSuffixL (s pat : List Char) : Bool :=
  hasPrefixL s.reverse pat.reverse

/-- `hasSubL pat s` is true when `pat` occurs contiguously inside `s`
(models JavaScript `String.prototype.includes`). -/
def hasSubL (pat : List Char) : List Char → Bool
  | [] => hasPrefixL [] pat
  | c :: cs => hasPrefixL (c :: cs) pat || hasSubL pat cs

/-- ASCII lower-casing of a string, character by character
(models `String.prototype.toLowerCase` on the ASCII hostnames involved). -/
def lowerStr (s : String) : String :=
  String.mk (s.toList.map Char.toLower)

/-! ## Model of the WHATWG `URL` parser

The source validates with `new URL(urlString)` and then reads only
`url.protocol` and `url.hostname`.  `parseURL` models exactly that surface of
Node's WHATWG parser: scheme recognition, authority extraction for special and
`//`-prefixed URLs, userinfo stripping at the last `@`, port validation, the
forbidden-host-code-point check, host lower-casing, and — crucially for the
IPv6 claims — the WHATWG host serializer's convention that an IPv6 host is
rendered *inside square brackets* (`url.hostname` of `http://[::1]/` is the
string `"[::1]"`).  Simplifications that do not affect the claims: no
percent-decoding or punycode, no IPv4 dotted-quad canonicalisation, IPv6 text
is checked only for plausible characters rather than full well-formedness, and
all C0 controls are treated as forbidden host characters. -/

/-- The fields of a parsed URL that `isUrlSafe` reads: `protocol` is the
lower-cased scheme with its trailing colon (as in `url.protocol`), `hostname`
the serialized host without the port (as in `url.hostname`). -/
structure URLRec where
  protocol : String
  hostname : String
deriving DecidableEq, Repr

/-- Characters allowed after the first character of a URL scheme. -/
def schemeRestChar (c : Char) : Bool :=
  c.isAlpha || c.isDigit || c == '+' || c == '-' || c == '.'

/-- Scans scheme characters until the terminating colon, lower-casing them;
fails if a non-scheme character or the end of input is reached first. -/
def schemeLoop (acc : List Char) : List Char → Option (List Char × List Char)
  | [] => none
  | c :: cs =>
    if c == ':' then some (acc.reverse, cs)
    else if schemeRestChar c then schemeLoop (c.toLower :: acc) cs
    else none

/-- Splits `scheme ":" rest`; the scheme must start with an ASCII letter. -/
def splitScheme : List Char → Option (List Char × List Char)
  | [] => none
  | c :: cs => if c.isAlpha then schemeLoop [c.toLower] cs else none

/-- The WHATWG special schemes. -/
def specialSchemes : List String := ["ftp", "file", "http", "https", "ws", "wss"]

/-- Whether a scheme is special in the WHATWG sense. -/
def isSpecial (sch : List Char) : Bool :=
  specialSchemes.contains (String.mk sch)

/-- Characters terminating the authority component. -/
def authorityEndChar (special : Bool) (c : Char) : Bool :=
  c == '/' || c == '?' || c == '#' || (special && c == '\\')

/-- The segment of an authority after its last `@` (the host-port part;
WHATWG strips userinfo at the last `@`).  Equals the input when no `@`
occurs. -/
def afterLastAt (l : List Char) : List Char :=
  (l.reverse.takeWhile (fun c => !(c == '@'))).reverse

/-- WHATWG forbidden host code points (with all C0 controls and space folded
into the `≤ 32` test); `:` is handled separately as the port delimiter. -/
def forbiddenHostChar (c : Char) : Bool :=
  decide (c.toNat ≤ 32) || c == '#' || c == '/' || c == ':' || c == '<' ||
  c == '>' || c == '?' || c == '@' || c == '[' || c == '\\' || c == ']' ||
  c == '^' || c == '|' || c == '%'

/-- ASCII hexadecimal digit. -/
def isHexChar (c : Char) : Bool :=
  c.isDigit || (decide (97 ≤ c.toNat) && decide (c.toNat ≤ 102)) ||
  (decide (65 ≤ c.toNat) && decide (c.toNat ≤ 70))

/-- Characters that may appear in the text of a bracketed IPv6 host. -/
def ipv6Char (c : Char) : Bool :=
  isHexChar c || c == ':' || c == '.'

/-- All characters are ASCII digits. -/
def allDigits : List Char → Bool
  | [] => true
  | c :: cs => c.isDigit && allDigits cs

/-- Numeric value of a digit string. -/
def portVal (l : List Char) : Nat :=
  l.foldl (fun n c => n * 10 + (c.toNat - 48)) 0

/-- A valid (possibly absent or empty) port suffix of the host-port part. -/
def portOk : List Char → Bool
  | [] => true
  | ':' :: ds => allDigits ds && decide (portVal ds ≤ 65535)
  | _ => false

/-- Parses the host-port part of an authority, returning the serialized
lower-cased host.  A bracketed IPv6 host keeps its square brackets, exactly as
the WHATWG host serializer (and hence `url.hostname`) does. -/
def parseHostPort (requireHost : Bool) (hp : List Char) : Option (List Char) :=
  match hp with
  | '[' :: rest =>
    (let inside := rest.takeWhile (fun c => !(c == ']'))
     let after := rest.dropWhile (fun c => !(c == ']'))
     match after with
     | [] => none
     | _ :: afterBr =>
       if !inside.isEmpty && inside.all ipv6Char && inside.contains ':' &&
          portOk afterBr then
         some ('[' :: (inside.map Char.toLower ++ [']']))
       else none)
  | _ =>
    (let host := hp.takeWhile (fun c => !(c == ':'))
     let portPart := hp.dropWhile (fun c => !(c == ':'))
     if (host.isEmpty && requireHost) || !(portOk portPart) ||
        host.any forbiddenHostChar then none
     else some (host.map Char.toLower))

/-- Model of `new URL(s)` restricted to the fields `isUrlSafe` reads.
Returns `none` exactly when the constructor would throw.  For special schemes
the parser skips any run of slashes after the colon (so `http:example.com`
parses, as in WHATWG); for non-special schemes an authority exists only after
`//`, otherwise the host is empty (opaque path). -/
def parseURL (s : String) : Option URLRec :=
  match splitScheme s.toList with
  | none => none
  | some (sch, rest) =>
    if isSpecial sch then
      (let rest2 := rest.dropWhile (fun c => c == '/' || c == '\\')
       let auth := rest2.takeWhile (fun c => !(authorityEndChar true c))
       match parseHostPort (!(String.mk sch == "file")) (afterLastAt auth) with
       | none => none
       | some host => some ⟨String.mk (sch ++ [':']), String.mk host⟩)
    else
      if hasPrefixL rest ['/', '/'] then
        (let auth := (rest.drop 2).takeWhile (fun c => !(authorityEndChar false c))
         match parseHostPort false (afterLastAt auth) with
         | none => none
         | some host => some ⟨String.mk (sch ++ [':']), String.mk host⟩)
      else some ⟨String.mk (sch ++ [':']), ""⟩

/-! ## The Target Validator (`isUrlSafe`) -/

/-- The validator's verdict: `Safe`, or `Unsafe` with a reason string
(the source returns `{ safe: true }` or `{ safe: false, reason }`). -/
inductive Outcome where
  | Safe : Outcome
  | Unsafe : String → Outcome
deriving DecidableEq, Repr

/-- The source constant `BLOCKED_HOSTS`. -/
def BLOCKED_HOSTS : List String :=
  ["localhost", "127.0.0.1", "0.0.0.0", "::1", "metadata.google.internal",
   "169.254.169.254"]

/-- The regex `/^127\./`. -/
def r127 (h : List Char) : Bool := hasPrefixL h ("127.".toList)

/-- The regex `/^10\./`. -/
def r10 (h : List Char) : Bool := hasPrefixL h ("10.".toList)

/-- The regex `/^172\.(1[6-9]|2[0-9]|3[0-1])\./`. -/
def r172 : List Char → Bool
  | '1' :: '7' :: '2' :: '.' :: a :: b :: '.' :: _ =>
    (a == '1' && (b == '6' || b == '7' || b == '8' || b == '9')) ||
    (a == '2' && b.isDigit) ||
    (a == '3' && (b == '0' || b == '1'))
  | _ => false

/-- The regex `/^192\.168\./`. -/
def r192168 (h : List Char) : Bool := hasPrefixL h ("192.168.".toList)

/-- The regex `/^169\.254\./`. -/
def r169254 (h : List Char) : Bool := hasPrefixL h ("169.254.".toList)

/-- The regex `/^fc00:/i` (the hostname is already lower-cased when tested,
so the case-insensitive flag reduces to a plain prefix test). -/
def rfc00 (h : List Char) : Bool := hasPrefixL h ("fc00:".toList)

/-- The regex `/^fe80:/i` (same remark as for `rfc00`). -/
def rfe80 (h : List Char) : Bool := hasPrefixL h ("fe80:".toList)

/-- The source constant `BLOCKED_IP_RANGES`, one predicate per regex,
in source order. -/
def BLOCKED_IP_RANGES : List (List Char → Bool) :=
  [r127, r10, r172, r192168, r169254, rfc00, rfe80]

/-- The source function `isUrlSafe`: parse; reject non-HTTP(S) schemes;
lower-case the hostname; reject exact blocked hosts, then blocked address
ranges, then internal-looking suffixes/substrings; otherwise safe.  A parse
failure (the constructor throwing) is caught and reported as
`Unsafe "Invalid URL"`. -/
def isUrlSafe (urlString : String) : Outcome :=
  match parseURL urlString with
  | none => Outcome.Unsafe "Invalid URL"
  | some url =>
    if url.protocol = "http:" ∨ url.protocol = "https:" then
      (let hostname := lowerStr url.hostname
       if hostname ∈ BLOCKED_HOSTS then Outcome.Unsafe "Blocked host"
       else if BLOCKED_IP_RANGES.any (fun p => p hostname.toList) then
         Outcome.Unsafe "Internal IP not allowed"
       else if hasSuffixL hostname.toList (".internal".toList) ||
               hasSuffixL hostname.toList (".local".toList) ||
               hasSubL ("metadata".toList) hostname.toList then
         Outcome.Unsafe "Internal hostname not allowed"
       else Outcome.Safe)
    else Outcome.Unsafe "Only HTTP/HTTPS allowed"

/-- The fixed set of reason strings the validator can attach to an `Unsafe`
verdict (every `reason:` literal occurring in the source function). -/
def reasonStrings : List String :=
  ["Invalid URL", "Only HTTP/HTTPS allowed", "Blocked host",
   "Internal IP not allowed", "Internal hostname not allowed"]

/-! ## The Rate Limiter (`rateLimit` and the sweep) -/

/-- The source constant `RATE_LIMIT_WINDOW` (milliseconds). -/
def RATE_LIMIT_WINDOW : Int := 60000

/-- The source constant `RATE_LIMIT_MAX`. -/
def RATE_LIMIT_MAX : Int := 10

/-- A per-identity entry of the `rateLimits` map:
`{ count, windowStart }` in the source. -/
structure ClientWindow where
  count : Int
  windowStart : Int
deriving DecidableEq, Repr

/-- The `rateLimits` map, modelled as an association list from the client
identity string to its `ClientWindow` (reachable states have unique keys,
as a JavaScript `Map` does). -/
abbrev RateState := List (String × ClientWindow)

/-- The admit/reject decision the middleware takes: `next()` is `Allow`,
the 429 response carrying `retryAfter` is `Reject retryAfterSeconds`. -/
inductive Decision where
  | Allow : Decision
  | Reject : Int → Decision
deriving DecidableEq, Repr

/-- `rateLimits.get(ip)` (also covering `rateLimits.has(ip)` via `none`). -/
def lookupWin : RateState → String → Option ClientWindow
  | [], _ => none
  | p :: rest, ip => if p.1 = ip then some p.2 else lookupWin rest ip

/-- `rateLimits.set(ip, e)` — and also the in-place mutation of the entry
object the source performs, since both replace `ip`'s binding. -/
def setWin : RateState → String → ClientWindow → RateState
  | [], ip, e => [(ip, e)]
  | p :: rest, ip, e => if p.1 = ip then (ip, e) :: rest else p :: setWin rest ip e

/-- Exact integer ceiling of `a / 1000`, modelling
`Math.ceil(a / 1000)` on integral millisecond quantities. -/
def ceilDiv1000 (a : Int) : Int :=
  -(Int.ediv (-a) 1000)

/-- The window reset the source performs in place
(`limit.count = 1; limit.windowStart = now`). -/
def resetWin (now : Int) (_e : ClientWindow) : ClientWindow :=
  ⟨1, now⟩

/-- The source middleware `rateLimit`, as a state transformer: given the map,
the client identity and `Date.now()`, it returns the updated map and the
decision.  First-seen identities get a fresh `⟨1, now⟩` entry and `Allow`;
an expired window is reset in place and allowed; otherwise the count is
incremented and compared against `RATE_LIMIT_MAX`, rejecting with
`Math.ceil((windowStart + RATE_LIMIT_WINDOW - now) / 1000)` seconds. -/
def rateLimit (s : RateState) (ip : String) (now : Int) : RateState × Decision :=
  match lookupWin s ip with
  | none => (setWin s ip ⟨1, now⟩, Decision.Allow)
  | some limit =>
    if now - limit.windowStart > RATE_LIMIT_WINDOW then
      (setWin s ip (resetWin now limit), Decision.Allow)
    else
      (let c := limit.count + 1
       if c > RATE_LIMIT_MAX then
         (setWin s ip ⟨c, limit.windowStart⟩,
          Decision.Reject (ceilDiv1000 (limit.windowStart + RATE_LIMIT_WINDOW - now)))
       else
         (setWin s ip ⟨c, limit.windowStart⟩, Decision.Allow))

/-- The `setInterval` sweep body: delete every entry with
`now - windowStart > RATE_LIMIT_WINDOW * 2`. -/
def sweep (s : RateState) (now : Int) : RateState :=
  s.filter (fun p =>
    if now - p.2.windowStart > RATE_LIMIT_WINDOW * 2 then false else true)

/-- A sequence of calls to the middleware for one identity at the given
times, collecting the decisions in order. -/
def runCalls (s : RateState) (ip : String) : List Int → RateState × List Decision
  | [] => (s, [])
  | t :: ts =>
    (let sd := rateLimit s ip t
     let rest := runCalls sd.1 ip ts
     (rest.1, sd.2 :: rest.2))

/-- The keys of the map are distinct (true of every state reachable from the
empty map, since `setWin` replaces an existing binding). -/
abbrev keysNodup (s : RateState) : Prop :=
  (s.map Prod.fst).Nodup

/-- The documented entry invariant: every existing entry has `count ≥ 1`. -/
abbrev countInv (s : RateState) : Prop :=
  ∀ p ∈ s, 1 ≤ p.2.count

/-! ## Map lemmas -/

theorem lookup_setWin_self (s : RateState) (ip : String) (e : ClientWindow) :
    lookupWin (setWin s ip e) ip = some e := by
  induction s with
  | nil => simp [setWin, lookupWin]
  | cons p rest ih =>
    by_cases h : p.1 = ip <;> simp [setWin, lookupWin, h, ih]

theorem mem_setWin (s : RateState) (ip : String) (e : ClientWindow) :
    ∀ q ∈ setWin s ip e, q = (ip, e) ∨ q ∈ s := by
  induction s with
  | nil => simp [setWin]
  | cons p rest ih =>
    intro q hq
    by_cases h : p.1 = ip
    · simp only [setWin, if_pos h, List.mem_cons] at hq
      rcases hq with hq | hq
      · exact Or.inl hq
      · exact Or.inr (List.mem_cons_of_mem _ hq)
    · simp only [setWin, if_neg h, List.mem_cons] at hq
      rcases hq with hq | hq
      · exact Or.inr (by simp [hq])
      · rcases ih q hq with h' | h'
        · exact Or.inl h'
        · exact Or.inr (List.mem_cons_of_mem _ h')

theorem lookupWin_mem (s : RateState) (ip : String) (e : ClientWindow) :
    lookupWin s ip = some e → (ip, e) ∈ s := by
  induction s with
  | nil => simp [lookupWin]
  | cons p rest ih =>
    intro h
    by_cases hp : p.1 = ip
    · simp only [lookupWin, if_pos hp] at h
      cases p with
      | mk k v =>
        simp only at hp
        injection h with h2
        subst hp
        subst h2
        exact List.mem_cons_self _ _
    · simp only [lookupWin, if_neg hp] at h
      exact List.mem_cons_of_mem _ (ih h)

theorem lookupWin_eq_none (s : RateState) (ip : String)
    (h : ip ∉ s.map Prod.fst) : lookupWin s ip = none := by
  induction s with
  | nil => simp [lookupWin]
  | cons p rest ih =>
    simp only [List.map_cons, List.mem_cons] at h
    push_neg at h
    have h1 : ¬ p.1 = ip := fun he => h.1 he.symm
    simp [lookupWin, h1, ih h.2]

/-! ## Claim theorems: the rate limiter -/

theorem runCalls_inWindow (ip : String) (t1 : Int) :
    ∀ (ts : List Int) (s : RateState) (c : Int),
      lookupWin s ip = some ⟨c, t1⟩ →
      1 ≤ c → c + (ts.length : Int) ≤ RATE_LIMIT_MAX →
      (∀ t ∈ ts, t - t1 ≤ RATE_LIMIT_WINDOW) →
      (runCalls s ip ts).2 = List.replicate ts.length Decision.Allow ∧
      lookupWin (runCalls s ip ts).1 ip = some ⟨c + (ts.length : Int), t1⟩ := by
  intro ts
  induction ts with
  | nil => intro s c hl _ _ _; simpa [runCalls] using hl
  | cons t ts ih =>
    intro s c hl hc1 hcmax hwin
    simp only [List.length_cons] at hcmax ⊢
    push_cast at hcmax ⊢
    have hwt : ¬ (t - t1 > RATE_LIMIT_WINDOW) :=
      not_lt.mpr (hwin t (List.mem_cons_self t ts))
    have hnot : ¬ (c + 1 > RATE_LIMIT_MAX) := by omega
    have hstep : rateLimit s ip t = (setWin s ip ⟨c + 1, t1⟩, Decision.Allow) := by
      simp [rateLimit, hl, hwt, hnot]
    have ihub := ih (setWin s ip ⟨c + 1, t1⟩) (c + 1)
      (lookup_setWin_self s ip ⟨c + 1, t1⟩) (by omega) (by omega)
      (fun t' ht' => hwin t' (List.mem_cons_of_mem _ ht'))
    constructor
    · simp [runCalls, hstep, ihub.1, List.replicate_succ]
    · simp only [runCalls, hstep]
      rw [ihub.2]
      congr 2
      omega

/-- C3: for every identity and every sequence of at most `RATE_LIMIT_MAX`
calls that all fall within one window of the entry the first call creates,
every call to the rate-limit middleware returns `Allow`. -/
theorem claim_C3_under_limit_allows (s0 : RateState) (ip : String)
    (t1 : Int) (ts : List Int)
    (h0 : lookupWin s0 ip = none)
    (hlen : ((t1 :: ts).length : Int) ≤ RATE_LIMIT_MAX)
    (hwin : ∀ t ∈ ts, t - t1 ≤ RATE_LIMIT_WINDOW) :
    (runCalls s0 ip (t1 :: ts)).2 =
      List.replicate (t1 :: ts).length Decision.Allow := by
  have hstep : rateLimit s0 ip t1 = (setWin s0 ip ⟨1, t1⟩, Decision.Allow) := by
    simp [rateLimit, h0]
  have hlen' : (1 : Int) + (ts.length : Int) ≤ RATE_LIMIT_MAX := by
    simp only [List.length_cons] at hlen
    push_cast at hlen ⊢
    omega
  have hrun := runCalls_inWindow ip t1 ts (setWin s0 ip ⟨1, t1⟩) 1
    (lookup_setWin_self s0 ip ⟨1, t1⟩) le_rfl hlen' hwin
  simp [runCalls, hstep, hrun.1, List.replicate_succ]

theorem claim_C3_witness :
    (runCalls ([] : RateState) "1.2.3.4" [0, 10, 59999]).2 =
      List.replicate 3 Decision.Allow :=
  claim_C3_under_limit_allows [] "1.2.3.4" 0 [10, 59999] rfl
    (by decide) (by decide)

/-- C4: a call inside the current window whose incremented count exceeds
`RATE_LIMIT_MAX` is rejected with
`retryAfterSeconds = ceil((windowStart + RATE_LIMIT_WINDOW - now) / 1000)`,
and the stored count still becomes `count + 1` (rejected requests consume
budget; nothing is decremented on rejection). -/
theorem claim_C4_reject_shape (s : RateState) (ip : String) (now : Int)
    (e : ClientWindow)
    (hl : lookupWin s ip = some e)
    (hw : ¬ (now - e.windowStart > RATE_LIMIT_WINDOW))
    (hc : e.count + 1 > RATE_LIMIT_MAX) :
    (rateLimit s ip now).2 =
      Decision.Reject (ceilDiv1000 (e.windowStart + RATE_LIMIT_WINDOW - now)) ∧
    lookupWin (rateLimit s ip now).1 ip = some ⟨e.count + 1, e.windowStart⟩ := by
  simp [rateLimit, hl, hw, hc, lookup_setWin_self]

theorem claim_C4_witness :
    (rateLimit [("c", ⟨10, 100⟩)] "c" 500).2 =
      Decision.Reject (ceilDiv1000 (100 + RATE_LIMIT_WINDOW - 500)) ∧
    lookupWin (rateLimit [("c", ⟨10, 100⟩)] "c" 500).1 "c" = some ⟨11, 100⟩ :=
  claim_C4_reject_shape [("c", ⟨10, 100⟩)] "c" 500 ⟨10, 100⟩ rfl
    (by decide) (by decide)

/-- C6: when an entry exists and `now - windowStart > RATE_LIMIT_WINDOW`,
the middleware resets the entry to `count = 1, windowStart = now` and allows
the request; the reset operation is idempotent — applying it twice in
immediate succession yields the same `count = 1` state. -/
theorem claim_C6_reset (s : RateState) (ip : String) (now : Int)
    (e : ClientWindow)
    (hl : lookupWin s ip = some e)
    (hw : now - e.windowStart > RATE_LIMIT_WINDOW) :
    rateLimit s ip now = (setWin s ip (resetWin now e), Decision.Allow) ∧
    (resetWin now e).count = 1 ∧ (resetWin now e).windowStart = now ∧
    resetWin now (resetWin now e) = resetWin now e := by
  refine ⟨?_, rfl, rfl, rfl⟩
  simp [rateLimit, hl, if_pos hw]

theorem ceilDiv1000_bounds (a : Int) (h0 : 0 ≤ a) (h1 : a ≤ 60000) :
    0 ≤ ceilDiv1000 a ∧ ceilDiv1000 a ≤ 60 := by
  unfold ceilDiv1000
  have hlo : ((-60000 : Int)).ediv 1000 ≤ (-a).ediv 1000 :=
    Int.ediv_le_ediv (by norm_num) (by omega)
  have hhi : (-a).ediv 1000 ≤ (0 : Int).ediv 1000 :=
    Int.ediv_le_ediv (by norm_num) (by omega)
  have e1 : ((-60000 : Int)).ediv 1000 = -60 := by decide
  have e2 : ((0 : Int)).ediv 1000 = 0 := by decide
  omega

/-- C5: an identity making `RATE_LIMIT_MAX + 1` calls within one window
(the first at `t1`, nine more in the window, the eleventh at `tlast`) has its
eleventh call rejected, and the attached `retryAfterSeconds` lies within
`[0, RATE_LIMIT_WINDOW / 1000] = [0, 60]`. -/
theorem claim_C5_eleventh_rejected (s0 : RateState) (ip : String)
    (t1 : Int) (mid : List Int) (tlast : Int)
    (h0 : lookupWin s0 ip = none)
    (hlen : mid.length = 9)
    (hmid : ∀ t ∈ mid, t1 ≤ t ∧ t - t1 ≤ RATE_LIMIT_WINDOW)
    (hl1 : t1 ≤ tlast) (hl2 : tlast - t1 ≤ RATE_LIMIT_WINDOW) :
    (rateLimit (runCalls s0 ip (t1 :: mid)).1 ip tlast).2 =
      Decision.Reject (ceilDiv1000 (t1 + RATE_LIMIT_WINDOW - tlast)) ∧
    0 ≤ ceilDiv1000 (t1 + RATE_LIMIT_WINDOW - tlast) ∧
    ceilDiv1000 (t1 + RATE_LIMIT_WINDOW - tlast) ≤ 60 := by
  have hstep : rateLimit s0 ip t1 = (setWin s0 ip ⟨1, t1⟩, Decision.Allow) := by
    simp [rateLimit, h0]
  have hrun := runCalls_inWindow ip t1 mid (setWin s0 ip ⟨1, t1⟩) 1
    (lookup_setWin_self s0 ip ⟨1, t1⟩) le_rfl
    (by rw [hlen]; decide) (fun t ht => (hmid t ht).2)
  have hstate : lookupWin (runCalls s0 ip (t1 :: mid)).1 ip = some ⟨10, t1⟩ := by
    have h10 : (1 : Int) + (mid.length : Int) = 10 := by rw [hlen]; decide
    have h2 := hrun.2
    rw [h10] at h2
    simpa [runCalls, hstep] using h2
  have hwt : ¬ (tlast - t1 > RATE_LIMIT_WINDOW) := not_lt.mpr hl2
  have hc : RATE_LIMIT_MAX < (11 : Int) := by decide
  have hb := ceilDiv1000_bounds (t1 + RATE_LIMIT_WINDOW - tlast)
    (by unfold RATE_LIMIT_WINDOW at hl2 ⊢; omega)
    (by unfold RATE_LIMIT_WINDOW; omega)
  refine ⟨?_, hb.1, hb.2⟩
  simp [rateLimit, hstate, hwt, hc]

theorem claim_C5_witness :
    (rateLimit (runCalls ([] : RateState) "w"
        (0 :: [5, 5, 5, 5, 5, 5, 5, 5, 60000])).1 "w" 60000).2 =
      Decision.Reject (ceilDiv1000 (0 + RATE_LIMIT_WINDOW - 60000)) ∧
    0 ≤ ceilDiv1000 (0 + RATE_LIMIT_WINDOW - 60000) ∧
    ceilDiv1000 (0 + RATE_LIMIT_WINDOW - 60000) ≤ 60 :=
  claim_C5_eleventh_rejected [] "w" 0 [5, 5, 5, 5, 5, 5, 5, 5, 60000] 60000
    rfl (by decide) (by decide) (by decide) (by decide)

theorem claim_C6_witness :
    rateLimit [("d", ⟨7, 0⟩)] "d" 60001 =
      (setWin [("d", ⟨7, 0⟩)] "d" (resetWin 60001 ⟨7, 0⟩), Decision.Allow) ∧
    (resetWin 60001 (⟨7, 0⟩ : ClientWindow)).count = 1 ∧
    (resetWin 60001 (⟨7, 0⟩ : ClientWindow)).windowStart = 60001 ∧
    resetWin 60001 (resetWin 60001 ⟨7, 0⟩) = resetWin 60001 ⟨7, 0⟩ :=
  claim_C6_reset [("d", ⟨7, 0⟩)] "d" 60001 ⟨7, 0⟩ rfl (by decide)

theorem sweep_sub (s : RateState) (now : Int) :
    ∀ q ∈ sweep s now, q ∈ s :=
  fun _ hq => (List.mem_filter.mp hq).1

theorem sweep_cons (p : String × ClientWindow) (rest : RateState) (now : Int) :
    sweep (p :: rest) now =
      if now - p.2.windowStart > RATE_LIMIT_WINDOW * 2 then sweep rest now
      else p :: sweep rest now := by
  by_cases hf : now - p.2.windowStart > RATE_LIMIT_WINDOW * 2 <;>
    simp [sweep, List.filter_cons, hf]

theorem lookup_sweep (s : RateState) (now : Int) (ip : String) (e : ClientWindow)
    (hnd : keysNodup s) :
    lookupWin (sweep s now) ip = some e ↔
      (lookupWin s ip = some e ∧
       now - e.windowStart ≤ RATE_LIMIT_WINDOW * 2) := by
  induction s with
  | nil => simp [sweep, lookupWin]
  | cons p rest ih =>
    have hnd2 : (p.1 :: rest.map Prod.fst).Nodup := hnd
    have hnotin : p.1 ∉ rest.map Prod.fst := (List.nodup_cons.mp hnd2).1
    have hndr : keysNodup rest := (List.nodup_cons.mp hnd2).2
    by_cases hp : p.1 = ip
    · by_cases hf : now - p.2.windowStart > RATE_LIMIT_WINDOW * 2
      · have hrest : lookupWin (sweep rest now) ip = none := by
          refine lookupWin_eq_none _ _ (fun hmem => ?_)
          rw [← hp] at hmem
          simp only [List.mem_map] at hmem hnotin
          obtain ⟨q, hq, hq1⟩ := hmem
          exact hnotin ⟨q, sweep_sub rest now q hq, hq1⟩
        rw [sweep_cons, if_pos hf, hrest]
        constructor
        · intro h
          exact absurd h (by simp)
        · intro h
          have he : e = p.2 := by
            have h1 := h.1
            simp only [lookupWin, if_pos hp] at h1
            injection h1 with h2
            exact h2.symm
          rw [he] at h
          exact absurd h.2 (not_le.mpr hf)
      · rw [sweep_cons, if_neg hf]
        simp only [lookupWin, if_pos hp]
        constructor
        · intro h
          injection h with h2
          subst h2
          exact ⟨rfl, not_lt.mp hf⟩
        · intro h
          exact h.1
    · rw [sweep_cons]
      by_cases hf : now - p.2.windowStart > RATE_LIMIT_WINDOW * 2
      · rw [if_pos hf]
        simp only [lookupWin, if_neg hp]
        exact ih hndr
      · rw [if_neg hf]
        simp only [lookupWin, if_neg hp]
        exact ih hndr

/-- C7: the sweep removes exactly the entries with
`now - windowStart > RATE_LIMIT_WINDOW * 2` (an entry survives the sweep if
and only if it existed and was not stale), and a subsequent call for a
removed identity is treated as first-seen: it returns `Allow` and stores a
fresh entry with `count = 1`. -/
theorem claim_C7_sweep_exact (s : RateState) (now now2 : Int) (ip : String)
    (e : ClientWindow) (hnd : keysNodup s) :
    (lookupWin (sweep s now) ip = some e ↔
       lookupWin s ip = some e ∧
       now - e.windowStart ≤ RATE_LIMIT_WINDOW * 2) ∧
    (lookupWin s ip = some e → now - e.windowStart > RATE_LIMIT_WINDOW * 2 →
       rateLimit (sweep s now) ip now2 =
         (setWin (sweep s now) ip ⟨1, now2⟩, Decision.Allow)) := by
  refine ⟨lookup_sweep s now ip e hnd, fun hl hstale => ?_⟩
  have hnone : lookupWin (sweep s now) ip = none := by
    cases h2 : lookupWin (sweep s now) ip with
    | none => rfl
    | some e2 =>
      have hin := (lookup_sweep s now ip e2 hnd).mp h2
      rw [hl] at hin
      have he : e2 = e := by
        injection hin.1 with h3
        exact h3.symm
      rw [he] at hin
      exact absurd hin.2 (not_le.mpr hstale)
  simp [rateLimit, hnone]

theorem claim_C7_witness :
    (lookupWin (sweep [("x", ⟨2, 0⟩)] 130000) "x" = some ⟨2, 0⟩ ↔
       lookupWin [("x", ⟨2, 0⟩)] "x" = some ⟨2, 0⟩ ∧
       130000 - (⟨2, 0⟩ : ClientWindow).windowStart ≤ RATE_LIMIT_WINDOW * 2) ∧
    (lookupWin [("x", ⟨2, 0⟩)] "x" = some ⟨2, 0⟩ →
     130000 - (⟨2, 0⟩ : ClientWindow).windowStart > RATE_LIMIT_WINDOW * 2 →
       rateLimit (sweep [("x", ⟨2, 0⟩)] 130000) "x" 130005 =
         (setWin (sweep [("x", ⟨2, 0⟩)] 130000) "x" ⟨1, 130005⟩,
          Decision.Allow)) :=
  claim_C7_sweep_exact [("x", ⟨2, 0⟩)] 130000 130005 "x" ⟨2, 0⟩ (by decide)

/-- C9: both limiter operations preserve the invariant that every existing
entry has `count ≥ 1`; and for an identity whose entry exists, its
`windowStart` never decreases across a call made at a time `now` that is not
earlier than the stored `windowStart` (the non-decreasing clock assumption);
the sweep only ever removes entries, so it changes no `windowStart`. -/
theorem claim_C9_invariants (s : RateState) (ip : String) (now : Int)
    (e e2 : ClientWindow) :
    (countInv s → countInv (rateLimit s ip now).1) ∧
    (countInv s → countInv (sweep s now)) ∧
    (lookupWin s ip = some e → e.windowStart ≤ now →
      lookupWin (rateLimit s ip now).1 ip = some e2 →
      e.windowStart ≤ e2.windowStart) := by
  refine ⟨?_, ?_, ?_⟩
  · intro hinv
    cases hl : lookupWin s ip with
    | none =>
      simp only [rateLimit, hl]
      intro q hq
      rcases mem_setWin s ip ⟨1, now⟩ q hq with rfl | hq2
      · norm_num
      · exact hinv q hq2
    | some limit =>
      have hcnt : 1 ≤ limit.count := hinv _ (lookupWin_mem s ip limit hl)
      by_cases hw : now - limit.windowStart > RATE_LIMIT_WINDOW
      · simp only [rateLimit, hl, if_pos hw]
        intro q hq
        rcases mem_setWin s ip (resetWin now limit) q hq with rfl | hq2
        · norm_num [resetWin]
        · exact hinv q hq2
      · by_cases hc : limit.count + 1 > RATE_LIMIT_MAX
        · simp only [rateLimit, hl, if_neg hw, if_pos hc]
          intro q hq
          rcases mem_setWin s ip ⟨limit.count + 1, limit.windowStart⟩ q hq
            with rfl | hq2
          · simp only []
            omega
          · exact hinv q hq2
        · simp only [rateLimit, hl, if_neg hw, if_neg hc]
          intro q hq
          rcases mem_setWin s ip ⟨limit.count + 1, limit.windowStart⟩ q hq
            with rfl | hq2
          · simp only []
            omega
          · exact hinv q hq2
  · intro hinv q hq
    exact hinv q (sweep_sub s now q hq)
  · intro hl hclock hl2
    by_cases hw : now - e.windowStart > RATE_LIMIT_WINDOW
    · have hres : lookupWin (rateLimit s ip now).1 ip = some (resetWin now e) := by
        simp [rateLimit, hl, hw, lookup_setWin_self]
      rw [hres] at hl2
      injection hl2 with h3
      rw [← h3]
      simpa [resetWin] using hclock
    · by_cases hc : e.count + 1 > RATE_LIMIT_MAX
      · have hres : lookupWin (rateLimit s ip now).1 ip =
            some ⟨e.count + 1, e.windowStart⟩ := by
          simp [rateLimit, hl, hw, hc, lookup_setWin_self]
        rw [hres] at hl2
        injection hl2 with h3
        rw [← h3]
      · have hres : lookupWin (rateLimit s ip now).1 ip =
            some ⟨e.count + 1, e.windowStart⟩ := by
          simp [rateLimit, hl, hw, hc, lookup_setWin_self]
        rw [hres] at hl2
        injection hl2 with h3
        rw [← h3]

theorem claim_C9_witness :
    countInv (rateLimit [("y", ⟨1, 0⟩)] "y" 70000).1 ∧
    countInv (sweep [("y", ⟨1, 0⟩)] 70000) ∧
    (⟨1, 0⟩ : ClientWindow).windowStart ≤
      (⟨1, 70000⟩ : ClientWindow).windowStart :=
  ⟨(claim_C9_invariants [("y", ⟨1, 0⟩)] "y" 70000 ⟨1, 0⟩ ⟨1, 70000⟩).1
      (by decide),
   (claim_C9_invariants [("y", ⟨1, 0⟩)] "y" 70000 ⟨1, 0⟩ ⟨1, 70000⟩).2.1
      (by decide),
   (claim_C9_invariants [("y", ⟨1, 0⟩)] "y" 70000 ⟨1, 0⟩ ⟨1, 70000⟩).2.2
      rfl (by decide) (by decide)⟩

/-! ## Claim theorems: the Target Validator -/

/-- C1: the six concrete vectors of the specification, decided exactly as it
states them: loopback and the cloud-metadata address are `Unsafe`, a plain
HTTPS page is `Safe`, a non-HTTP(S) scheme is `Unsafe`, an `.internal`
hostname is `Unsafe`, and a string that does not parse as a URL is
`Unsafe`. -/
theorem claim_C1_vectors :
    isUrlSafe "http://127.0.0.1/" = Outcome.Unsafe "Blocked host" ∧
    isUrlSafe "http://169.254.169.254/latest/meta-data" =
      Outcome.Unsafe "Blocked host" ∧
    isUrlSafe "https://example.com/page" = Outcome.Safe ∧
    isUrlSafe "ftp://example.com/" = Outcome.Unsafe "Only HTTP/HTTPS allowed" ∧
    isUrlSafe "http://service.internal/" =
      Outcome.Unsafe "Internal hostname not allowed" ∧
    isUrlSafe "not a url" = Outcome.Unsafe "Invalid URL" := by
  refine ⟨?_, ?_, ?_, ?_, ?_, ?_⟩ <;> decide

/-- C2 evidence: the validator classifies the IPv6 loopback and link-local
URLs `http://[::1]/` and `http://[fe80::1]/` as `Safe`.  The WHATWG parser
serializes an IPv6 host inside square brackets (`url.hostname` is `"[::1]"`,
shown by the third conjunct), so the exact-match entry `"::1"` of
`BLOCKED_HOSTS` and the anchored patterns `/^fc00:/i` and `/^fe80:/i` of
`BLOCKED_IP_RANGES` can never match it: the blocked-address patterns do not,
in fact, cover the loopback or link-local IPv6 ranges. -/
theorem claim_C2_ipv6_bypass :
    isUrlSafe "http://[::1]/" = Outcome.Safe ∧
    isUrlSafe "http://[fe80::1]/" = Outcome.Safe ∧
    parseURL "http://[::1]/" = some ⟨"http:", "[::1]"⟩ ∧
    parseURL "http://[fe80::1]/" = some ⟨"http:", "[fe80::1]"⟩ := by
  refine ⟨?_, ?_, ?_, ?_⟩ <;> decide

/-- C8: the validator is total — for every input string it returns `Safe` or
`Unsafe` with some reason — and fails closed in the documented precedence
order: an input the URL parser rejects is classified `Unsafe "Invalid URL"`
(before any scheme or host inspection can happen), and a parsed URL with a
non-HTTP(S) scheme is classified by the scheme rule regardless of its host. -/
theorem claim_C8_total_fail_closed (s : String) :
    (isUrlSafe s = Outcome.Safe ∨ ∃ r, isUrlSafe s = Outcome.Unsafe r) ∧
    (parseURL s = none → isUrlSafe s = Outcome.Unsafe "Invalid URL") ∧
    (∀ u, parseURL s = some u →
      ¬ (u.protocol = "http:" ∨ u.protocol = "https:") →
      isUrlSafe s = Outcome.Unsafe "Only HTTP/HTTPS allowed") := by
  refine ⟨?_, ?_, ?_⟩
  · cases h : isUrlSafe s with
    | Safe => exact Or.inl rfl
    | Unsafe r => exact Or.inr ⟨r, rfl⟩
  · intro h
    simp [isUrlSafe, h]
  · intro u hu hp
    simp [isUrlSafe, hu, hp]

theorem claim_C8_witness :
    isUrlSafe "not a url" = Outcome.Unsafe "Invalid URL" ∧
    isUrlSafe "ftp://example.com/" = Outcome.Unsafe "Only HTTP/HTTPS allowed" :=
  ⟨(claim_C8_total_fail_closed "not a url").2.1 (by decide),
   (claim_C8_total_fail_closed "ftp://example.com/").2.2
     ⟨"ftp:", "example.com"⟩ (by decide) (by decide)⟩

/-- C10: every reason a verdict of `Unsafe` can carry is one of the five
fixed coarse category strings of `reasonStrings`; in particular no reason
ever echoes the matched blocked range, pattern, or any other detail of the
input or of the internal network topology. -/
theorem claim_C10_reasons_coarse (s : String) (r : String)
    (h : isUrlSafe s = Outcome.Unsafe r) : r ∈ reasonStrings := by
  rw [isUrlSafe] at h
  cases hp : parseURL s with
  | none =>
    rw [hp] at h
    injection h with h2
    rw [← h2]
    decide
  | some u =>
    rw [hp] at h
    simp only [] at h
    by_cases h1 : u.protocol = "http:" ∨ u.protocol = "https:"
    · rw [if_pos h1] at h
      by_cases h2 : lowerStr u.hostname ∈ BLOCKED_HOSTS
      · rw [if_pos h2] at h
        injection h with h3
        rw [← h3]
        decide
      · rw [if_neg h2] at h
        by_cases h3 : BLOCKED_IP_RANGES.any
            (fun p => p (lowerStr u.hostname).toList) = true
        · rw [if_pos h3] at h
          injection h with h4
          rw [← h4]
          decide
        · rw [if_neg h3] at h
          by_cases h4 : (hasSuffixL (lowerStr u.hostname).toList
                (".internal".toList) ||
              hasSuffixL (lowerStr u.hostname).toList (".local".toList) ||
              hasSubL ("metadata".toList) (lowerStr u.hostname).toList) = true
          · rw [if_pos h4] at h
            injection h with h5
            rw [← h5]
            decide
          · rw [if_neg h4] at h
            exact absurd h (by simp)
    · rw [if_neg h1] at h
      injection h with h2
      rw [← h2]
      decide

theorem claim_C10_witness : "Blocked host" ∈ reasonStrings :=
  claim_C10_reasons_coarse "http://127.0.0.1/" "Blocked host" (by decide)
